import Mathlib

/-!
# Verification of the TF-IDF question-answering core (`questions.py`)

Python dictionaries are modelled as association lists
(`List (String × β)`) preserving insertion order; `dict` key uniqueness
becomes a `Nodup` hypothesis on the key list.  Fallible Python
operations (a `KeyError` raised by `idfs[word]` or `sentences[sentence]`,
a `ZeroDivisionError`, `math.log` applied to a non-positive number) are
modelled with `Option`: `none` is an uncaught exception aborting the
computation.  Numeric scores are generic over a `LinearOrderedField`,
instantiated at `ℚ` for executable checks and at `ℝ` where `math.log`
is involved.  Python's `sorted(..., reverse=True)` is a stable sort and
is modelled by `List.insertionSort` on the corresponding non-strict
descending comparison, which is stable in the same sense.
-/

namespace Questions

/-- Python `d[k]` on an insertion-ordered dictionary modelled as an
association list: the value at the first matching key, `none` for a
`KeyError`. -/
def getValue {β : Type*} (k : String) : List (String × β) → Option β
  | [] => none
  | p :: rest => if p.1 = k then some p.2 else getValue k rest

/-- The keys of a modelled dictionary, in insertion order. -/
def keys {β : Type*} (d : List (String × β)) : List String :=
  d.map Prod.fst

/-- Model of `compute_word_idf(word, documents)` (questions.py lines 98–105):
`math.log(total_documents / num_documents_with_word)` where
`num_documents_with_word = sum([1 if word in document else 0 for
document in documents.values()])`.  `none` models the
`ZeroDivisionError` raised when no document contains the word. -/
noncomputable def compute_word_idf (word : String)
    (documents : List (String × List String)) : Option ℝ :=
  let total_documents := documents.length
  let num_documents_with_word := documents.countP (fun p => decide (word ∈ p.2))
  if num_documents_with_word = 0 then none
  else some (Real.log ((total_documents : ℝ) / (num_documents_with_word : ℝ)))

/-- The loop of `compute_idfs` (questions.py lines 88–95): walk the
words of all documents in order, adding an IDF entry for each word not
already present.  A `none` from `compute_word_idf` aborts the whole
computation, as the corresponding Python exception would. -/
noncomputable def insertIdfs (documents : List (String × List String)) :
    List String → List (String × ℝ) → Option (List (String × ℝ))
  | [], idf_dict => some idf_dict
  | word :: ws, idf_dict =>
    if (getValue word idf_dict).isSome then insertIdfs documents ws idf_dict
    else
      match compute_word_idf word documents with
      | none => none
      | some v => insertIdfs documents ws (idf_dict ++ [(word, v)])

/-- Model of `compute_idfs(documents)` (questions.py lines 80–95). -/
noncomputable def compute_idfs (documents : List (String × List String)) :
    Option (List (String × ℝ)) :=
  insertIdfs documents ((documents.map Prod.snd).flatten) []

variable {α : Type*} [LinearOrderedField α]

/-- The per-file sum of `top_files` (questions.py line 126):
`sum([tf * idfs[word] for word, tf in word_tf.items()])` with
`tf = document.count(word)` (line 120); `none` models the `KeyError`
raised by `idfs[word]`.  The lookup happens for every query word, also
when `tf = 0`. -/
def fileScore (idfs : List (String × α)) (document : List String) :
    List String → Option α
  | [] => some 0
  | word :: qs =>
    match getValue word idfs, fileScore idfs document qs with
    | some v, some s => some ((document.count word : α) * v + s)
    | _, _ => none

/-- The file-by-file TF-IDF scores of `top_files` (questions.py lines
115–126), in file insertion order. -/
def scoreFiles (query : List String) (idfs : List (String × α)) :
    List (String × List String) → Option (List (String × α))
  | [] => some []
  | (filename, document) :: rest =>
    match fileScore idfs document query, scoreFiles query idfs rest with
    | some s, some srest => some ((filename, s) :: srest)
    | _, _ => none

/-- The comparison of `sorted(file_tfidf.items(), key=lambda x: x[1],
reverse=True)` (questions.py line 128): non-strict descending on the
score component. -/
def scoreGE (x y : String × α) : Prop :=
  y.2 ≤ x.2

instance : DecidableRel (@scoreGE α _) :=
  fun x y => inferInstanceAs (Decidable (y.2 ≤ x.2))

instance : IsTotal (String × α) (@scoreGE α _) :=
  ⟨fun x y => le_total y.2 x.2⟩

instance : IsTrans (String × α) (@scoreGE α _) :=
  ⟨fun _ _ _ h1 h2 => le_trans h2 h1⟩

/-- Model of `top_files(query, files, idfs, n)` (questions.py lines 108–130):
score every file, sort the scored names descending by score with a
stable sort, return the first `n` filenames. -/
def top_files (query : List String) (files : List (String × List String))
    (idfs : List (String × α)) (n : ℕ) : Option (List String) :=
  match scoreFiles query idfs files with
  | none => none
  | some scored => some (((List.insertionSort scoreGE scored).map Prod.fst).take n)

/-- Model of `query_term_density(query, sentences, sentence)` (questions.py lines
154–166): the fraction of the sentence's words that are members of the
query.  `none` models the `KeyError` when `sentence` is not a key of
`sentences` as well as the `ZeroDivisionError` when the sentence's word
list is empty. -/
def query_term_density (query : List String)
    (sentences : List (String × List String)) (sentence : String) : Option α :=
  match getValue sentence sentences with
  | none => none
  | some ws =>
    if ws.length = 0 then none
    else some ((ws.countP (fun w => decide (w ∈ query)) : α) / (ws.length : α))

/-- The IDF accumulation of `top_sentences` (questions.py lines
142–147): each query word contained in the sentence's word list
contributes `idfs[word]` once; `none` models a failing `idfs[word]`
lookup. -/
def sentenceIdfSum (idfs : List (String × α)) (ws : List String) :
    List String → Option α
  | [] => some 0
  | word :: qs =>
    if word ∈ ws then
      match getValue word idfs, sentenceIdfSum idfs ws qs with
      | some v, some s => some (v + s)
      | _, _ => none
    else sentenceIdfSum idfs ws qs

/-- The scored map `sentences_mwm` of `top_sentences` (questions.py
lines 140–147): a sentence enters with the pair `(summed IDF of the
query words it contains, query term density)` exactly when some query
word is contained in its word list; other sentences are skipped.  The
argument `sentences` is the full map used for the density lookup; the
recursion walks the same map. -/
def scoreSentences (query : List String)
    (sentences : List (String × List String)) (idfs : List (String × α)) :
    List (String × List String) → Option (List (String × (α × α)))
  | [] => some []
  | (sentence, ws) :: rest =>
    if ∃ w ∈ query, w ∈ ws then
      match sentenceIdfSum idfs ws query,
          (query_term_density query sentences sentence : Option α),
          scoreSentences query sentences idfs rest with
      | some s, some d, some srest => some ((sentence, (s, d)) :: srest)
      | _, _, _ => none
    else scoreSentences query sentences idfs rest

/-- The comparison of `sorted(sentences_mwm.items(), key=lambda x:
(x[1][0], x[1][1]), reverse=True)` (questions.py line 149): non-strict
descending lexicographic on the `(idf sum, density)` pair. -/
def pairGE (x y : String × α × α) : Prop :=
  y.2.1 < x.2.1 ∨ (y.2.1 = x.2.1 ∧ y.2.2 ≤ x.2.2)

instance : DecidableRel (@pairGE α _) :=
  fun x y =>
    inferInstanceAs (Decidable (y.2.1 < x.2.1 ∨ (y.2.1 = x.2.1 ∧ y.2.2 ≤ x.2.2)))

instance : IsTotal (String × α × α) (@pairGE α _) :=
  ⟨by
    intro x y
    rcases lt_trichotomy x.2.1 y.2.1 with h | h | h
    · exact Or.inr (Or.inl h)
    · rcases le_total x.2.2 y.2.2 with h2 | h2
      · exact Or.inr (Or.inr ⟨h, h2⟩)
      · exact Or.inl (Or.inr ⟨h.symm, h2⟩)
    · exact Or.inl (Or.inl h)⟩

instance : IsTrans (String × α × α) (@pairGE α _) :=
  ⟨by
    intro x y z h1 h2
    rcases h1 with h1 | ⟨h1e, h1le⟩
    · rcases h2 with h2 | ⟨h2e, h2le⟩
      · exact Or.inl (lt_trans h2 h1)
      · exact Or.inl (h2e ▸ h1)
    · rcases h2 with h2 | ⟨h2e, h2le⟩
      · exact Or.inl (h1e ▸ h2)
      · exact Or.inr ⟨h2e.trans h1e, le_trans h2le h1le⟩⟩

/-- Model of `top_sentences(query, sentences, idfs, n)` (questions.py lines
132–151): build the scored map, sort it descending lexicographically on
the `(idf sum, density)` pair with a stable sort, return the first `n`
sentences. -/
def top_sentences (query : List String)
    (sentences : List (String × List String)) (idfs : List (String × α))
    (n : ℕ) : Option (List String) :=
  match scoreSentences query sentences idfs sentences with
  | none => none
  | some scored => some (((List.insertionSort pairGE scored).map Prod.fst).take n)

/-- The spec's per-document TF-IDF score (§4.3): the sum over query
tokens `q` of `count(q, document) × IDF(q)`, the IDF read from the
table (the `0` default is unreachable when every query token has an
entry).  Stated from the spec's words, to be compared with the
source-derived `fileScore`. -/
def specFileScore (query : List String) (idfs : List (String × α))
    (document : List String) : α :=
  (query.map (fun w => (document.count w : α) * (getValue w idfs).getD 0)).sum

/-- The spec's sentence primary key (§4.4): the sum of IDF values over
the distinct query tokens contained in the sentence's word list.
Stated from the spec's words, to be compared with the source-derived
`sentenceIdfSum`. -/
def specSentenceScore (query : List String) (idfs : List (String × α))
    (ws : List String) : α :=
  ((query.filter (fun w => decide (w ∈ ws))).map (fun w => (getValue w idfs).getD 0)).sum

/-- The spec's query term density (§4.4): count of the sentence's
tokens that are query members, over the total token count.  Stated from
the spec's words, to be compared with the source-derived
`query_term_density`. -/
def specDensity (query : List String) (ws : List String) : α :=
  (ws.countP (fun w => decide (w ∈ query)) : α) / (ws.length : α)

/-- The spec's scored entry for a sentence (§4.4): the name paired with
`(primary key, tie-break key)`. -/
def specScoredPair (query : List String) (idfs : List (String × α))
    (p : String × List String) : String × (α × α) :=
  (p.1, (specSentenceScore query idfs p.2, specDensity query p.2))

/-! ## Association-list lemmas -/

theorem getValue_isSome_iff {β : Type*} {k : String} {d : List (String × β)} :
    (getValue k d).isSome ↔ k ∈ keys d := by
  induction d with
  | nil => simp [getValue, keys]
  | cons p rest ih =>
    by_cases h : p.1 = k
    · simp [getValue, keys, h]
    · have hne : k ≠ p.1 := fun he => h he.symm
      simp only [getValue, if_neg h]
      simp [keys, hne] at ih ⊢
      exact ih

theorem getValue_mem {β : Type*} {k : String} {v : β} {d : List (String × β)}
    (h : getValue k d = some v) : (k, v) ∈ d := by
  induction d with
  | nil => simp [getValue] at h
  | cons p rest ih =>
    by_cases hp : p.1 = k
    · simp [getValue, hp] at h
      exact List.mem_cons.2 (Or.inl (Prod.ext hp.symm h.symm))
    · simp [getValue, hp] at h
      exact List.mem_cons_of_mem _ (ih h)

theorem getValue_of_mem_nodup {β : Type*} {d : List (String × β)}
    (hnd : (keys d).Nodup) {k : String} {v : β} (h : (k, v) ∈ d) :
    getValue k d = some v := by
  induction d with
  | nil => simp at h
  | cons p rest ih =>
    rcases List.mem_cons.1 h with h | h
    · rw [← h]
      simp [getValue]
    · have h1 : p.1 ∉ keys rest := (List.nodup_cons.1 hnd).1
      have hrest : (keys rest).Nodup := (List.nodup_cons.1 hnd).2
      have hk : p.1 ≠ k := by
        intro he
        refine h1 ?_
        rw [he]
        exact List.mem_map.2 ⟨(k, v), h, rfl⟩
      simp [getValue, hk, ih hrest h]

theorem getValue_append_some {β : Type*} {k : String} {v : β}
    {d e : List (String × β)} (h : getValue k d = some v) :
    getValue k (d ++ e) = some v := by
  induction d with
  | nil => simp [getValue] at h
  | cons p rest ih =>
    by_cases hp : p.1 = k <;> simp [getValue, hp] at h ⊢
    · exact h
    · exact ih h

theorem getValue_append_none {β : Type*} {k : String}
    {d e : List (String × β)} (h : getValue k d = none) :
    getValue k (d ++ e) = getValue k e := by
  induction d with
  | nil => simp [getValue]
  | cons p rest ih =>
    by_cases hp : p.1 = k <;> simp [getValue, hp] at h ⊢
    exact ih h

theorem getValue_singleton {β : Type*} {k w : String} {v : β} :
    getValue k [(w, v)] = if w = k then some v else none := rfl

/-! ## `top_files` lemmas -/

section FileLemmas

variable {α : Type*} [LinearOrderedField α]

theorem fileScore_eq_spec {idfs : List (String × α)} {document : List String}
    {query : List String} (h : ∀ w ∈ query, (getValue w idfs).isSome) :
    fileScore idfs document query = some (specFileScore query idfs document) := by
  induction query with
  | nil => simp [fileScore, specFileScore]
  | cons w qs ih =>
    obtain ⟨v, hv⟩ := Option.isSome_iff_exists.1 (h w (List.mem_cons_self w qs))
    have hqs : ∀ u ∈ qs, (getValue u idfs).isSome :=
      fun u hu => h u (List.mem_cons_of_mem _ hu)
    simp [fileScore, hv, ih hqs, specFileScore]

theorem fileScore_eq_none {idfs : List (String × α)} {document : List String}
    {query : List String} {w : String} (hw : w ∈ query)
    (hmiss : getValue w idfs = none) :
    fileScore idfs document query = none := by
  induction query with
  | nil => simp at hw
  | cons u qs ih =>
    rcases List.mem_cons.1 hw with h | h
    · subst h
      simp [fileScore, hmiss]
    · cases hgv : getValue u idfs <;> simp [fileScore, hgv, ih h]

theorem scoreFiles_eq_spec {query : List String} {idfs : List (String × α)}
    {files : List (String × List String)}
    (h : ∀ w ∈ query, (getValue w idfs).isSome) :
    scoreFiles query idfs files =
      some (files.map (fun p => (p.1, specFileScore query idfs p.2))) := by
  induction files with
  | nil => simp [scoreFiles]
  | cons f rest ih =>
    cases f with
    | mk name document => simp [scoreFiles, fileScore_eq_spec h, ih]

theorem scoreFiles_eq_none {query : List String} {idfs : List (String × α)}
    {files : List (String × List String)} {w : String} (hw : w ∈ query)
    (hmiss : getValue w idfs = none) (hne : files ≠ []) :
    scoreFiles query idfs files = none := by
  cases files with
  | nil => exact absurd rfl hne
  | cons f rest =>
    cases f with
    | mk name document => simp [scoreFiles, fileScore_eq_none hw hmiss]

end FileLemmas

/-! ## Claim C1 -/

/-- Claim C1, counterexample: with query token `x` absent from the IDF
table and a non-empty corpus, `top_files` does not return a ranking —
it propagates the failed `idfs[word]` lookup (`KeyError`). -/
theorem top_files_zero_policy_cex :
    top_files ["x"] [("a", ["b"])] [("b", (1 : ℚ))] 1 = none := by
  decide

/-- Claim C1, amended: when some query token has no entry in the IDF
table and the corpus is non-empty, `top_files` fails (the `KeyError`
of `idfs[word]` propagates) instead of scoring the token as zero and
returning a ranking. -/
theorem top_files_missing_idf {α : Type*} [LinearOrderedField α]
    {query : List String} {files : List (String × List String)}
    {idfs : List (String × α)} {n : ℕ} {w : String} (hw : w ∈ query)
    (hmiss : getValue w idfs = none) (hne : files ≠ []) :
    top_files query files idfs n = none := by
  simp [top_files, scoreFiles_eq_none hw hmiss hne]

/-- Witness for `top_files_missing_idf` at a concrete input. -/
theorem top_files_missing_idf_witness :
    "x" ∈ ["x"] ∧ getValue ("x") [("b", (1 : ℚ))] = none ∧
      ([("a", ["b"])] : List (String × List String)) ≠ [] ∧
      top_files ["x"] [("a", ["b"])] [("b", (1 : ℚ))] 2 = none :=
  ⟨by decide, by decide, by decide,
    @top_files_missing_idf ℚ _ (["x"]) ([("a", ["b"])]) ([("b", (1 : ℚ))]) 2
      ("x") (by decide) (by decide) (by decide)⟩

/-! ## Sorting and mapped-dictionary lemmas -/

theorem keys_map_snd {β γ : Type*} {g : String × β → γ}
    {d : List (String × β)} :
    keys (d.map (fun p => (p.1, g p))) = keys d := by
  induction d with
  | nil => rfl
  | cons p rest ih => simp [keys]

theorem keys_map_specScored {α : Type*} [LinearOrderedField α]
    {query : List String} {idfs : List (String × α)}
    {l : List (String × List String)} :
    keys (l.map (specScoredPair query idfs)) = keys l := by
  induction l with
  | nil => rfl
  | cons p rest ih => simp [keys, specScoredPair]

theorem getValue_map_val {β γ : Type*} (g : β → γ) {k : String}
    {d : List (String × β)} :
    getValue k (d.map (fun q => (q.1, g q.2))) = (getValue k d).map g := by
  induction d with
  | nil => rfl
  | cons p rest ih => by_cases hp : p.1 = k <;> simp [getValue, hp, ih]

/-- What `sorted(d.items(), key=..., reverse=True)[:n]` mapped to keys
satisfies: length `min n (length d)`, keys drawn from `d`, and pairwise
ordered by the sort comparison applied to the associated values. -/
theorem take_sort_spec {γ : Type*} (r : String × γ → String × γ → Prop)
    [DecidableRel r] [IsTotal (String × γ) r] [IsTrans (String × γ) r]
    (scored : List (String × γ)) (hnd : (keys scored).Nodup) (n : ℕ) :
    (((List.insertionSort r scored).map Prod.fst).take n).length = min n scored.length ∧
    (∀ a ∈ ((List.insertionSort r scored).map Prod.fst).take n, a ∈ keys scored) ∧
    (((List.insertionSort r scored).map Prod.fst).take n).Pairwise
      (fun a b => ∃ pa pb, getValue a scored = some pa ∧
        getValue b scored = some pb ∧ r (a, pa) (b, pb)) := by
  have hperm := List.perm_insertionSort r scored
  refine ⟨by simp [hperm.length_eq], ?_, ?_⟩
  · intro a ha
    have ha2 : a ∈ (List.insertionSort r scored).map Prod.fst :=
      List.mem_of_mem_take ha
    obtain ⟨p, hp, hpa⟩ := List.mem_map.1 ha2
    have hp2 : p ∈ scored := hperm.subset hp
    exact hpa ▸ List.mem_map.2 ⟨p, hp2, rfl⟩
  · have hsorted : (List.insertionSort r scored).Pairwise r :=
      List.sorted_insertionSort r scored
    have h2 : (List.insertionSort r scored).Pairwise
        (fun x y => ∃ pa pb, getValue x.1 scored = some pa ∧
          getValue y.1 scored = some pb ∧ r (x.1, pa) (y.1, pb)) := by
      refine hsorted.imp_of_mem ?_
      intro x y hx hy hr
      refine ⟨x.2, y.2, ?_, ?_, ?_⟩
      · exact getValue_of_mem_nodup hnd (by rw [Prod.mk.eta]; exact hperm.subset hx)
      · exact getValue_of_mem_nodup hnd (by rw [Prod.mk.eta]; exact hperm.subset hy)
      · rw [Prod.mk.eta, Prod.mk.eta]; exact hr
    have h3 : ((List.insertionSort r scored).map Prod.fst).Pairwise
        (fun a b => ∃ pa pb, getValue a scored = some pa ∧
          getValue b scored = some pb ∧ r (a, pa) (b, pb)) :=
      List.pairwise_map.2 h2
    exact h3.sublist (List.take_sublist n _)

/-! ## Claim C2 -/

/-- Claim C2: with every query token present in the IDF table and a
positive `n`, `top_files` returns names ordered descending by the
TF-IDF score `Σ over query tokens q of count(q, document) × IDF(q)`
(absent tokens contribute zero through a zero count), with exactly
`min n (number of documents)` entries drawn from the corpus — in
particular a non-empty result on a non-empty corpus, a zero score
being a valid candidate. -/
theorem top_files_ranking {α : Type*} [LinearOrderedField α]
    (query : List String) (files : List (String × List String))
    (idfs : List (String × α)) (n : ℕ)
    (hidf : ∀ w ∈ query, (getValue w idfs).isSome)
    (hnd : (keys files).Nodup) (hn : 0 < n) :
    ∃ res, top_files query files idfs n = some res ∧
      res.length = min n files.length ∧
      (∀ a ∈ res, a ∈ keys files) ∧
      res.Pairwise (fun a b => ∃ da db, getValue a files = some da ∧
        getValue b files = some db ∧
        specFileScore query idfs db ≤ specFileScore query idfs da) ∧
      (files ≠ [] → res ≠ []) := by
  have hsf := @scoreFiles_eq_spec α _ query idfs files hidf
  have hkeys : keys (files.map (fun p => (p.1, specFileScore query idfs p.2))) =
      keys files := keys_map_snd
  have hnd2 : (keys (files.map (fun p => (p.1, specFileScore query idfs p.2)))).Nodup := by
    rw [hkeys]; exact hnd
  obtain ⟨hlen, hmem, hpw⟩ := take_sort_spec (@scoreGE α _)
    (files.map (fun p => (p.1, specFileScore query idfs p.2))) hnd2 n
  have htop : top_files query files idfs n =
      some (((List.insertionSort scoreGE
        (files.map (fun p => (p.1, specFileScore query idfs p.2)))).map
          Prod.fst).take n) := by
    simp [top_files, hsf]
  refine ⟨_, htop, ?_, ?_, ?_, ?_⟩
  · rw [List.length_map] at hlen
    exact hlen
  · intro a ha
    have := hmem a ha
    rwa [hkeys] at this
  · refine hpw.imp ?_
    intro a b hab
    obtain ⟨pa, pb, hpa, hpb, hr⟩ := hab
    rw [getValue_map_val (fun document => specFileScore query idfs document)] at hpa hpb
    obtain ⟨da, hda, hda2⟩ := Option.map_eq_some'.1 hpa
    obtain ⟨db, hdb, hdb2⟩ := Option.map_eq_some'.1 hpb
    refine ⟨da, db, hda, hdb, ?_⟩
    have hr2 : pb ≤ pa := hr
    rw [← hda2, ← hdb2] at hr2
    exact hr2
  · intro hne
    have hl : 0 < files.length := List.length_pos.2 hne
    have : 0 < min n files.length := lt_min hn hl
    intro hres
    rw [hres] at hlen
    simp at hlen
    omega

/-- Witness for `top_files_ranking` at a concrete input (the spec's
"dogs" scenario). -/
theorem top_files_ranking_witness :
    (∀ w ∈ (["dogs"] : List String), (getValue w [("dogs", (1 : ℚ))]).isSome) ∧
    (keys ([("a", ["dogs"]), ("b", ["cats"])] : List (String × List String))).Nodup ∧
    (0 : ℕ) < 1 ∧
    (∃ res, top_files ["dogs"] [("a", ["dogs"]), ("b", ["cats"])] [("dogs", (1 : ℚ))] 1 = some res ∧
      res.length =
        min 1 ([("a", ["dogs"]), ("b", ["cats"])] : List (String × List String)).length ∧
      (∀ x ∈ res, x ∈ keys ([("a", ["dogs"]), ("b", ["cats"])] : List (String × List String))) ∧
      res.Pairwise (fun x y => ∃ da db,
        getValue x [("a", ["dogs"]), ("b", ["cats"])] = some da ∧
        getValue y [("a", ["dogs"]), ("b", ["cats"])] = some db ∧
        specFileScore ["dogs"] [("dogs", (1 : ℚ))] db ≤
          specFileScore ["dogs"] [("dogs", (1 : ℚ))] da) ∧
      (([("a", ["dogs"]), ("b", ["cats"])] : List (String × List String)) ≠ [] → res ≠ [])) :=
  ⟨by decide, by decide, by decide,
    top_files_ranking ["dogs"] [("a", ["dogs"]), ("b", ["cats"])] [("dogs", (1 : ℚ))] 1
      (by decide) (by decide) (by decide)⟩

/-! ## `top_sentences` lemmas -/

section SentenceLemmas

variable {α : Type*} [LinearOrderedField α]

theorem sentenceIdfSum_eq_spec {idfs : List (String × α)} {ws : List String}
    {query : List String} (h : ∀ w ∈ query, w ∈ ws → (getValue w idfs).isSome) :
    sentenceIdfSum idfs ws query = some (specSentenceScore query idfs ws) := by
  induction query with
  | nil => simp [sentenceIdfSum, specSentenceScore]
  | cons w qs ih =>
    have hqs : ∀ u ∈ qs, u ∈ ws → (getValue u idfs).isSome :=
      fun u hu => h u (List.mem_cons_of_mem _ hu)
    by_cases hw : w ∈ ws
    · obtain ⟨v, hv⟩ :=
        Option.isSome_iff_exists.1 (h w (List.mem_cons_self w qs) hw)
      simp [sentenceIdfSum, hw, hv, ih hqs, specSentenceScore, List.filter_cons]
    · simp [sentenceIdfSum, hw, ih hqs, specSentenceScore, List.filter_cons]

theorem query_term_density_eq_spec {query : List String}
    {sentences : List (String × List String)} {sentence : String}
    {ws : List String} (hnd : (keys sentences).Nodup)
    (hmem : (sentence, ws) ∈ sentences) (hne : ws ≠ []) :
    (query_term_density query sentences sentence : Option α) =
      some (specDensity query ws) := by
  have hgv := getValue_of_mem_nodup hnd hmem
  have hlen : ws.length ≠ 0 := fun h => hne (List.length_eq_zero.1 h)
  simp [query_term_density, hgv, hlen, specDensity]

theorem scoreSentences_eq_spec {query : List String}
    {sentences : List (String × List String)} {idfs : List (String × α)}
    (hnd : (keys sentences).Nodup)
    (hidf : ∀ w ∈ query, ∀ p ∈ sentences, w ∈ p.2 → (getValue w idfs).isSome)
    {l : List (String × List String)} (hsub : ∀ p ∈ l, p ∈ sentences) :
    scoreSentences query sentences idfs l =
      some ((l.filter (fun p => decide (∃ w ∈ query, w ∈ p.2))).map
        (specScoredPair query idfs)) := by
  induction l with
  | nil => simp [scoreSentences]
  | cons p rest ih =>
    have hp : p ∈ sentences := hsub p (List.mem_cons_self p rest)
    have hrest : ∀ q ∈ rest, q ∈ sentences :=
      fun q hq => hsub q (List.mem_cons_of_mem _ hq)
    cases p with
    | mk sentence ws =>
      by_cases hg : ∃ w ∈ query, w ∈ ws
      · obtain ⟨w0, hw0q, hw0⟩ := hg
        have hg2 : ∃ w ∈ query, w ∈ ws := ⟨w0, hw0q, hw0⟩
        have hne : ws ≠ [] := by
          intro h; rw [h] at hw0; simp at hw0
        have hsum := sentenceIdfSum_eq_spec
          (fun w hw hin => hidf w hw (sentence, ws) hp hin)
        have hdens := @query_term_density_eq_spec α _ query sentences
          sentence ws hnd hp hne
        simp [scoreSentences, hg2, hsum, hdens, ih hrest, List.filter_cons,
          specScoredPair]
      · simp [scoreSentences, hg, ih hrest, List.filter_cons]

/-- Under complete IDF lookups for the query tokens actually contained
in some sentence, `top_sentences` returns a ranking: the density
division is only ever reached behind the containment guard, so it never
fails, sentences with empty word lists included. -/
theorem top_sentences_isSome {query : List String}
    {sentences : List (String × List String)} {idfs : List (String × α)}
    (n : ℕ) (hnd : (keys sentences).Nodup)
    (hidf : ∀ w ∈ query, ∀ p ∈ sentences, w ∈ p.2 → (getValue w idfs).isSome) :
    ∃ res, top_sentences query sentences idfs n = some res := by
  have hsc := scoreSentences_eq_spec hnd hidf (fun p hp => hp)
  refine ⟨((List.insertionSort pairGE
      ((sentences.filter (fun p => decide (∃ w ∈ query, w ∈ p.2))).map
        (specScoredPair query idfs))).map Prod.fst).take n, ?_⟩
  simp [top_sentences, hsc]

end SentenceLemmas

/-! ## Claims C3, C4, C9 -/

/-- Claim C3: with a matching sentence-level IDF table, the primary
score `top_sentences` assigns to a scored sentence is the sum of the
IDF values of the distinct query tokens contained in its word list
(containment, not frequency; the filtered query list is duplicate-free
because the query is a set), and a sentence containing no query token
never appears in the returned ranking. -/
theorem top_sentences_primary_score {α : Type*} [LinearOrderedField α]
    (query : List String) (sentences : List (String × List String))
    (idfs : List (String × α)) (n : ℕ) (hq : query.Nodup)
    (hnd : (keys sentences).Nodup)
    (hidf : ∀ w ∈ query, ∀ p ∈ sentences, w ∈ p.2 → (getValue w idfs).isSome) :
    ∃ scored res, scoreSentences query sentences idfs sentences = some scored ∧
      top_sentences query sentences idfs n = some res ∧
      (∀ s pr, (s, pr) ∈ scored → ∀ ws, (s, ws) ∈ sentences →
        pr.1 = specSentenceScore query idfs ws ∧
        (query.filter (fun w => decide (w ∈ ws))).Nodup) ∧
      (∀ s ∈ res, ∃ ws, (s, ws) ∈ sentences ∧ ∃ w ∈ query, w ∈ ws) := by
  have hsc := scoreSentences_eq_spec hnd hidf (fun p hp => hp)
  have htop : top_sentences query sentences idfs n =
      some (((List.insertionSort pairGE
        ((sentences.filter (fun p => decide (∃ w ∈ query, w ∈ p.2))).map
          (specScoredPair query idfs))).map Prod.fst).take n) := by
    simp [top_sentences, hsc]
  refine ⟨_, _, hsc, htop, ?_, ?_⟩
  · intro s pr hpr ws hws
    obtain ⟨p, hpf, hpe⟩ := List.mem_map.1 hpr
    obtain ⟨s2, ws2⟩ := p
    simp only [specScoredPair, Prod.mk.injEq] at hpe
    obtain ⟨hs2, hpr2⟩ := hpe
    have hps : (s, ws2) ∈ sentences := by
      rw [← hs2]
      exact List.mem_of_mem_filter hpf
    have heq : ws = ws2 :=
      Option.some_injective _
        ((getValue_of_mem_nodup hnd hws).symm.trans (getValue_of_mem_nodup hnd hps))
    rw [heq, ← hpr2]
    exact ⟨rfl, hq.filter _⟩
  · intro s hs
    have hs2 : s ∈ (List.insertionSort pairGE
        ((sentences.filter (fun p => decide (∃ w ∈ query, w ∈ p.2))).map
          (specScoredPair query idfs))).map Prod.fst :=
      List.mem_of_mem_take hs
    obtain ⟨p, hp, hpe⟩ := List.mem_map.1 hs2
    have hp2 := (List.perm_insertionSort pairGE _).subset hp
    obtain ⟨q, hqf, hqe⟩ := List.mem_map.1 hp2
    have hqs : q ∈ sentences := List.mem_of_mem_filter hqf
    have hguard := List.of_mem_filter hqf
    have hg : ∃ w ∈ query, w ∈ q.2 := of_decide_eq_true hguard
    have hmem : (q.1, q.2) ∈ sentences := by rw [Prod.mk.eta]; exact hqs
    have hq1 : q.1 = s := by
      have hfst := congrArg Prod.fst hqe
      simp only [specScoredPair] at hfst
      exact hfst.trans hpe
    rw [hq1] at hmem
    exact ⟨q.2, hmem, hg⟩

/-- Witness for `top_sentences_primary_score` at a concrete input. -/
theorem top_sentences_primary_score_witness :
    (["cat"] : List String).Nodup ∧
    (keys ([("s1", ["cat", "dog"]), ("s2", ["dog"])] : List (String × List String))).Nodup ∧
    (∀ w ∈ (["cat"] : List String),
      ∀ p ∈ ([("s1", ["cat", "dog"]), ("s2", ["dog"])] : List (String × List String)),
        w ∈ p.2 → (getValue w [("cat", (1 : ℚ)), ("dog", (2 : ℚ))]).isSome) ∧
    (∃ (scored : List (String × (ℚ × ℚ))) (res : List String),
      scoreSentences ["cat"] [("s1", ["cat", "dog"]), ("s2", ["dog"])]
        [("cat", (1 : ℚ)), ("dog", (2 : ℚ))]
        [("s1", ["cat", "dog"]), ("s2", ["dog"])] = some scored ∧
      top_sentences ["cat"] [("s1", ["cat", "dog"]), ("s2", ["dog"])]
        [("cat", (1 : ℚ)), ("dog", (2 : ℚ))] 1 = some res ∧
      (∀ s pr, (s, pr) ∈ scored →
        ∀ ws, (s, ws) ∈ ([("s1", ["cat", "dog"]), ("s2", ["dog"])] :
            List (String × List String)) →
          pr.1 = specSentenceScore ["cat"] [("cat", (1 : ℚ)), ("dog", (2 : ℚ))] ws ∧
          ((["cat"] : List String).filter (fun w => decide (w ∈ ws))).Nodup) ∧
      (∀ s ∈ res, ∃ ws,
        (s, ws) ∈ ([("s1", ["cat", "dog"]), ("s2", ["dog"])] :
          List (String × List String)) ∧
        ∃ w ∈ (["cat"] : List String), w ∈ ws)) :=
  ⟨by decide, by decide, by decide,
    top_sentences_primary_score ["cat"] [("s1", ["cat", "dog"]), ("s2", ["dog"])]
      [("cat", (1 : ℚ)), ("dog", (2 : ℚ))] 1 (by decide) (by decide) (by decide)⟩

/-- Claim C4: `top_sentences` orders its result descending
lexicographically on the pair (summed query-term IDF, query term
density): the primary key dominates and equal primary keys are broken
by higher density first; at most `n` sentences are returned. -/
theorem top_sentences_ordering {α : Type*} [LinearOrderedField α]
    (query : List String) (sentences : List (String × List String))
    (idfs : List (String × α)) (n : ℕ) (hnd : (keys sentences).Nodup)
    (hidf : ∀ w ∈ query, ∀ p ∈ sentences, w ∈ p.2 → (getValue w idfs).isSome) :
    ∃ scored res, scoreSentences query sentences idfs sentences = some scored ∧
      top_sentences query sentences idfs n = some res ∧
      res.length ≤ n ∧
      res.Pairwise (fun a b => ∃ pa pb, getValue a scored = some pa ∧
        getValue b scored = some pb ∧
        (pb.1 < pa.1 ∨ (pb.1 = pa.1 ∧ pb.2 ≤ pa.2))) := by
  have hsc := scoreSentences_eq_spec hnd hidf (fun p hp => hp)
  have hnd2 : (keys ((sentences.filter (fun p => decide (∃ w ∈ query, w ∈ p.2))).map
      (specScoredPair query idfs))).Nodup := by
    rw [keys_map_specScored]
    exact hnd.sublist ((List.filter_sublist sentences).map Prod.fst)
  have hts := take_sort_spec (@pairGE α _)
    ((sentences.filter (fun p => decide (∃ w ∈ query, w ∈ p.2))).map
      (specScoredPair query idfs)) hnd2 n
  obtain ⟨hlen, hmem, hpw⟩ := hts
  have htop : top_sentences query sentences idfs n =
      some (((List.insertionSort pairGE
        ((sentences.filter (fun p => decide (∃ w ∈ query, w ∈ p.2))).map
          (specScoredPair query idfs))).map Prod.fst).take n) := by
    simp [top_sentences, hsc]
  refine ⟨_, _, hsc, htop, ?_, ?_⟩
  · rw [hlen]
    exact min_le_left _ _
  · exact hpw.imp (fun h => h)

/-- Witness for `top_sentences_ordering` at a concrete input (two
sentences with equal summed IDF, the shorter/denser first). -/
theorem top_sentences_ordering_witness :
    (keys ([("long", ["cat", "a", "b"]), ("short", ["cat", "a"])] :
      List (String × List String))).Nodup ∧
    (∀ w ∈ (["cat"] : List String),
      ∀ p ∈ ([("long", ["cat", "a", "b"]), ("short", ["cat", "a"])] :
          List (String × List String)),
        w ∈ p.2 → (getValue w [("cat", (1 : ℚ))]).isSome) ∧
    (∃ (scored : List (String × (ℚ × ℚ))) (res : List String),
      scoreSentences ["cat"] [("long", ["cat", "a", "b"]), ("short", ["cat", "a"])]
        [("cat", (1 : ℚ))]
        [("long", ["cat", "a", "b"]), ("short", ["cat", "a"])] = some scored ∧
      top_sentences ["cat"] [("long", ["cat", "a", "b"]), ("short", ["cat", "a"])]
        [("cat", (1 : ℚ))] 2 = some res ∧
      res.length ≤ 2 ∧
      res.Pairwise (fun a b => ∃ pa pb, getValue a scored = some pa ∧
        getValue b scored = some pb ∧
        (pb.1 < pa.1 ∨ (pb.1 = pa.1 ∧ pb.2 ≤ pa.2)))) :=
  ⟨by decide, by decide,
    top_sentences_ordering ["cat"]
      [("long", ["cat", "a", "b"]), ("short", ["cat", "a"])]
      [("cat", (1 : ℚ))] 2 (by decide) (by decide)⟩

/-- Claim C9: even on maps containing sentences whose token sequence is
empty, `top_sentences` never reaches the density division with a zero
denominator: the density is computed only behind the guard that some
query token is contained in the sentence's word list, which forces that
list non-empty, so (IDF lookups succeeding) the whole call returns a
ranking instead of failing. -/
theorem top_sentences_density_safe {α : Type*} [LinearOrderedField α]
    (query : List String) (sentences : List (String × List String))
    (idfs : List (String × α)) (n : ℕ) (hnd : (keys sentences).Nodup)
    (hidf : ∀ w ∈ query, ∀ p ∈ sentences, w ∈ p.2 → (getValue w idfs).isSome) :
    ∃ res, top_sentences query sentences idfs n = some res :=
  top_sentences_isSome n hnd hidf

/-- Witness for `top_sentences_density_safe` at a concrete input that
contains a sentence with an empty token sequence. -/
theorem top_sentences_density_safe_witness :
    (keys ([("s1", ["a"]), ("empty", [])] : List (String × List String))).Nodup ∧
    (∀ w ∈ (["a"] : List String),
      ∀ p ∈ ([("s1", ["a"]), ("empty", [])] : List (String × List String)),
        w ∈ p.2 → (getValue w [("a", (1 : ℚ))]).isSome) ∧
    (∃ res, top_sentences ["a"] [("s1", ["a"]), ("empty", [])]
      [("a", (1 : ℚ))] 1 = some res) :=
  ⟨by decide, by decide,
    top_sentences_density_safe ["a"] [("s1", ["a"]), ("empty", [])]
      [("a", (1 : ℚ))] 1 (by decide) (by decide)⟩

/-! ## `compute_idfs` lemmas -/

theorem compute_word_idf_eq {word : String}
    {documents : List (String × List String)}
    (h : ∃ p ∈ documents, word ∈ p.2) :
    compute_word_idf word documents =
      some (Real.log ((documents.length : ℝ) /
        (documents.countP (fun p => decide (word ∈ p.2)) : ℝ))) := by
  have hpos : 0 < documents.countP (fun p => decide (word ∈ p.2)) := by
    refine List.countP_pos_iff.2 ?_
    obtain ⟨p, hp, hw⟩ := h
    exact ⟨p, hp, decide_eq_true hw⟩
  simp [compute_word_idf, Nat.pos_iff_ne_zero.1 hpos]

theorem insertIdfs_spec (documents : List (String × List String)) :
    ∀ (ws : List String) (d : List (String × ℝ)),
      (∀ w ∈ ws, ∃ p ∈ documents, w ∈ p.2) →
      ∃ m, insertIdfs documents ws d = some m ∧
        (∀ k, (getValue k m).isSome ↔ ((getValue k d).isSome ∨ k ∈ ws)) ∧
        (∀ k v, getValue k m = some v →
          getValue k d = some v ∨ compute_word_idf k documents = some v) := by
  intro ws
  induction ws with
  | nil =>
    intro d _
    exact ⟨d, rfl, fun k => by simp, fun k v h => Or.inl h⟩
  | cons w ws ih =>
    intro d hall
    have hw : ∃ p ∈ documents, w ∈ p.2 := hall w (List.mem_cons_self w ws)
    have hrest : ∀ u ∈ ws, ∃ p ∈ documents, u ∈ p.2 :=
      fun u hu => hall u (List.mem_cons_of_mem _ hu)
    by_cases hsome : (getValue w d).isSome
    · obtain ⟨m, hm, hiff, hval⟩ := ih d hrest
      refine ⟨m, by simp [insertIdfs, hsome, hm], ?_, hval⟩
      intro k
      rw [hiff k]
      constructor
      · rintro (h | h)
        · exact Or.inl h
        · exact Or.inr (List.mem_cons_of_mem _ h)
      · rintro (h | h)
        · exact Or.inl h
        · rcases List.mem_cons.1 h with h2 | h2
          · exact Or.inl (h2 ▸ hsome)
          · exact Or.inr h2
    · have hcw := compute_word_idf_eq hw
      obtain ⟨m, hm, hiff, hval⟩ := ih (d ++ [(w, Real.log ((documents.length : ℝ) /
        (documents.countP (fun p => decide (w ∈ p.2)) : ℝ)))]) hrest
      have hnone : getValue w d = none := Option.not_isSome_iff_eq_none.1 hsome
      refine ⟨m, by simp [insertIdfs, hsome, hcw, hm], ?_, ?_⟩
      · intro k
        rw [hiff k]
        by_cases hkd : (getValue k d).isSome
        · obtain ⟨u, hu⟩ := Option.isSome_iff_exists.1 hkd
          simp [getValue_append_some hu, hkd]
        · have hkn : getValue k d = none := Option.not_isSome_iff_eq_none.1 hkd
          rw [getValue_append_none hkn, getValue_singleton]
          by_cases hwk : w = k
          · simp [hwk, hkd]
          · have hkw : k ≠ w := fun he => hwk he.symm
            simp [hwk, hkd, hkw]
      · intro k v hkv
        rcases hval k v hkv with h | h
        · by_cases hkd : (getValue k d).isSome
          · obtain ⟨u, hu⟩ := Option.isSome_iff_exists.1 hkd
            rw [getValue_append_some hu] at h
            exact Or.inl (hu.trans h)
          · have hkn : getValue k d = none := Option.not_isSome_iff_eq_none.1 hkd
            rw [getValue_append_none hkn, getValue_singleton] at h
            by_cases hwk : w = k
            · simp only [if_pos hwk] at h
              refine Or.inr ?_
              rw [← hwk, hcw, h]
            · simp [hwk] at h
        · exact Or.inr h

/-- The function `compute_idfs` always succeeds; its keys are exactly the tokens
appearing in at least one unit, and each stored value is the
corresponding `compute_word_idf`. -/
theorem compute_idfs_spec (documents : List (String × List String)) :
    ∃ m, compute_idfs documents = some m ∧
      (∀ k, (getValue k m).isSome ↔ ∃ p ∈ documents, k ∈ p.2) ∧
      (∀ k v, getValue k m = some v → compute_word_idf k documents = some v) := by
  have hall : ∀ w ∈ (documents.map Prod.snd).flatten, ∃ p ∈ documents, w ∈ p.2 := by
    intro w hw
    obtain ⟨l, hl, hwl⟩ := List.mem_flatten.1 hw
    obtain ⟨p, hp, hpe⟩ := List.mem_map.1 hl
    exact ⟨p, hp, hpe ▸ hwl⟩
  obtain ⟨m, hm, hiff, hval⟩ :=
    insertIdfs_spec documents ((documents.map Prod.snd).flatten) [] hall
  refine ⟨m, hm, ?_, ?_⟩
  · intro k
    rw [hiff k]
    constructor
    · rintro (h | h)
      · simp [getValue] at h
      · exact hall k h
    · rintro ⟨p, hp, hk⟩
      exact Or.inr (List.mem_flatten.2 ⟨p.2, List.mem_map.2 ⟨p, hp, rfl⟩, hk⟩)
  · intro k v h
    rcases hval k v h with h2 | h2
    · simp [getValue] at h2
    · exact h2

/-! ## Claims C5, C6, C7 -/

/-- Claim C5: on a non-empty unit set, `compute_idfs` maps every token
`t` appearing in at least one unit to `ln(N / d)` with `N` the number
of units and `d` the number of units containing `t` (containment, not
frequency); a token in all `N` units gets IDF `0` and a token in
exactly one of `N > 1` units gets `ln N`. -/
theorem compute_idfs_values (documents : List (String × List String))
    (t : String) (hne : documents ≠ []) (ht : ∃ p ∈ documents, t ∈ p.2) :
    ∃ m, compute_idfs documents = some m ∧
      getValue t m = some (Real.log ((documents.length : ℝ) /
        (documents.countP (fun p => decide (t ∈ p.2)) : ℝ))) ∧
      (documents.countP (fun p => decide (t ∈ p.2)) = documents.length →
        getValue t m = some 0) ∧
      (documents.countP (fun p => decide (t ∈ p.2)) = 1 →
        1 < documents.length →
        getValue t m = some (Real.log (documents.length : ℝ))) := by
  obtain ⟨m, hm, hiff, hval⟩ := compute_idfs_spec documents
  obtain ⟨v, hv⟩ := Option.isSome_iff_exists.1 ((hiff t).2 ht)
  have hcw := hval t v hv
  rw [compute_word_idf_eq ht] at hcw
  have hveq : v = Real.log ((documents.length : ℝ) /
      (documents.countP (fun p => decide (t ∈ p.2)) : ℝ)) :=
    (Option.some_injective _ hcw).symm
  have hN : (documents.length : ℝ) ≠ 0 := by
    have h0 : documents.length ≠ 0 := fun h0 => hne (List.length_eq_zero.1 h0)
    exact_mod_cast h0
  refine ⟨m, hm, by rw [hv, hveq], ?_, ?_⟩
  · intro hd
    rw [hv, hveq, hd, div_self hN, Real.log_one]
  · intro hd _
    rw [hv, hveq, hd]
    norm_num

/-- Witness for `compute_idfs_values` at a concrete input: in the
corpus `{A: [cat], B: [dog]}` the token `cat` appears in `d = 1` of
`N = 2` units, so its IDF is `ln(2/1) = ln 2`. -/
theorem compute_idfs_values_witness :
    ([("A", ["cat"]), ("B", ["dog"])] : List (String × List String)) ≠ [] ∧
    (∃ p ∈ ([("A", ["cat"]), ("B", ["dog"])] : List (String × List String)),
      "cat" ∈ p.2) ∧
    (∃ m, compute_idfs [("A", ["cat"]), ("B", ["dog"])] = some m ∧
      getValue ("cat") m = some (Real.log (((2 : ℕ) : ℝ) / ((1 : ℕ) : ℝ))) ∧
      ((1 : ℕ) = 2 → getValue ("cat") m = some 0) ∧
      ((1 : ℕ) = 1 → 1 < 2 → getValue ("cat") m = some (Real.log ((2 : ℕ) : ℝ)))) :=
  ⟨by decide, by decide,
    compute_idfs_values [("A", ["cat"]), ("B", ["dog"])] ("cat")
      (by decide) (by decide)⟩

/-- Claim C6, counterexample: invoking `compute_idfs` over an empty
unit set is not fatal — the call returns a value instead of aborting
the computation. -/
theorem compute_idfs_empty_cex : (compute_idfs []).isSome = true := rfl

/-- Claim C6, amended: `compute_idfs` over zero units returns the empty
IDF table without failing — the word loop never runs, so the undefined
`ln(0/0)` is never attempted. -/
theorem compute_idfs_empty : compute_idfs [] = some [] := rfl

/-- Claim C7: the key set of the table returned by `compute_idfs` is
exactly the set of tokens appearing in at least one unit's token
sequence. -/
theorem compute_idfs_keys (documents : List (String × List String)) :
    ∃ m, compute_idfs documents = some m ∧
      ∀ t, t ∈ keys m ↔ ∃ p ∈ documents, t ∈ p.2 := by
  obtain ⟨m, hm, hiff, _⟩ := compute_idfs_spec documents
  exact ⟨m, hm, fun t => getValue_isSome_iff.symm.trans (hiff t)⟩

/-! ## Claims C8, C10 -/

/-- Claim C8: for a sentence with a non-empty token sequence,
`query_term_density` returns a value in `[0, 1]`; it is `0` when no
token of the sentence is in the query and `1` when every token is. -/
theorem query_term_density_bounds {α : Type*} [LinearOrderedField α]
    (query : List String) (sentences : List (String × List String))
    (sentence : String) (ws : List String) (hnd : (keys sentences).Nodup)
    (hmem : (sentence, ws) ∈ sentences) (hne : ws ≠ []) :
    ∃ r : α, query_term_density query sentences sentence = some r ∧
      0 ≤ r ∧ r ≤ 1 ∧
      ((∀ w ∈ ws, w ∉ query) → r = 0) ∧
      ((∀ w ∈ ws, w ∈ query) → r = 1) := by
  have hq := @query_term_density_eq_spec α _ query sentences sentence ws hnd hmem hne
  have hlpos : (0 : α) < (ws.length : α) := by
    exact_mod_cast List.length_pos.2 hne
  refine ⟨specDensity query ws, hq, ?_, ?_, ?_, ?_⟩
  · exact div_nonneg (by positivity) (le_of_lt hlpos)
  · rw [specDensity]
    refine (div_le_one hlpos).2 ?_
    exact_mod_cast List.countP_le_length _
  · intro h0
    have hc : ws.countP (fun w => decide (w ∈ query)) = 0 :=
      List.countP_eq_zero.2 (by intro a ha; simp [h0 a ha])
    rw [specDensity, hc]
    simp
  · intro h1
    have hc : ws.countP (fun w => decide (w ∈ query)) = ws.length :=
      List.countP_eq_length.2 (by intro a ha; simp [h1 a ha])
    rw [specDensity, hc]
    exact div_self (ne_of_gt hlpos)

/-- Witness for `query_term_density_bounds` at a concrete input. -/
theorem query_term_density_bounds_witness :
    (keys ([("s", ["a", "b"])] : List (String × List String))).Nodup ∧
    (("s", ["a", "b"]) ∈ ([("s", ["a", "b"])] : List (String × List String))) ∧
    ((["a", "b"] : List String) ≠ []) ∧
    (∃ r : ℚ, query_term_density ["a"] [("s", ["a", "b"])] ("s") = some r ∧
      0 ≤ r ∧ r ≤ 1 ∧
      ((∀ w ∈ (["a", "b"] : List String), w ∉ (["a"] : List String)) → r = 0) ∧
      ((∀ w ∈ (["a", "b"] : List String), w ∈ (["a"] : List String)) → r = 1)) :=
  ⟨by decide, by decide, by decide,
    query_term_density_bounds (["a"]) ([("s", ["a", "b"])]) ("s") (["a", "b"])
      (by decide) (by decide) (by decide)⟩

/-- Claim C10: when the IDF table handed to `top_sentences` is the one
`compute_idfs` computed over the same sentence map, every IDF lookup
performed by `top_sentences` succeeds — a query token's IDF is looked
up only when the token is contained in some sentence, and every such
token has an entry — so the call returns a ranking. -/
theorem top_sentences_total_idfs (query : List String)
    (sentences : List (String × List String)) (n : ℕ)
    (hnd : (keys sentences).Nodup) :
    ∃ m res, compute_idfs sentences = some m ∧
      top_sentences query sentences m n = some res := by
  obtain ⟨m, hm, hiff, _⟩ := compute_idfs_spec sentences
  have hidf : ∀ w ∈ query, ∀ p ∈ sentences, w ∈ p.2 → (getValue w m).isSome :=
    fun w _ p hp hw => (hiff w).2 ⟨p, hp, hw⟩
  obtain ⟨res, hres⟩ := top_sentences_isSome n hnd hidf
  exact ⟨m, res, hm, hres⟩

/-- Witness for `top_sentences_total_idfs` at a concrete input. -/
theorem top_sentences_total_idfs_witness :
    (keys ([("s", ["cat"])] : List (String × List String))).Nodup ∧
    (∃ m res, compute_idfs [("s", ["cat"])] = some m ∧
      top_sentences ["cat"] [("s", ["cat"])] m 1 = some res) :=
  ⟨by decide, top_sentences_total_idfs ["cat"] [("s", ["cat"])] 1 (by decide)⟩

end Questions
